import Mathlib

/-!
# Verification of the taxonomy-validated extraction pipeline

Shallow embedding of the dataset-generation notebook
(`cohort_2/week5/1. Generate Dataset.ipynb`): the `ItemMetadata` schema and
its taxonomy validators, the retry/semaphore/gather batch loop, and the
flattening/assembly stage, together with proofs of the specified properties.

Modelling conventions:
* Python dicts become association lists (`List (key × value)`); lookup takes
  the first matching key, and `list(d.keys())` is the key list in order.
* Pydantic `mode="after"` model validators run in definition order and the
  first `ValueError` aborts validation, so `validate` below chains
  `validate_material_and_pattern` (defined first in the source) before
  `validate_category_and_attributes`.
* The `ValueError` messages are modelled as a structured `ValidationError`
  whose constructor arguments are exactly the data interpolated into the
  corresponding f-string of the source.
* `random.uniform`/`round(x, 2)` are modelled over `ℚ` with round-half-to-even,
  `json.dumps`/`json.loads` at the JSON-value level, and the asyncio
  semaphore/gather as explicit event traces and completion schedules.
-/

namespace GenDataset

/-- `ItemAttribute`: a (name, value) pair, as in the pydantic model. -/
structure ItemAttribute where
  name : String
  value : String
deriving DecidableEq, Repr

/-- `ItemMetadata`: the extracted-item record shape from the notebook. -/
structure ItemMetadata where
  title : String
  brand : String
  description : String
  category : String
  subcategory : String
  product_type : String
  attributes : List ItemAttribute
  material : String
  pattern : String
deriving DecidableEq, Repr

/-- The per-subcategory data of `taxonomy_map[category][subcategory]`:
a `product_type` list and an `attributes` dict (name → valid values). -/
structure SubcategoryData where
  product_type : List String
  attributes : List (String × List String)
deriving DecidableEq, Repr

/-- The validation context `taxonomy_data`: the nested `taxonomy_map` plus the
`common_attributes` vocabularies for `Pattern` and `Material` used by the
validators. -/
structure TaxonomyData where
  taxonomy_map : List (String × List (String × SubcategoryData))
  patterns : List String
  materials : List String
deriving DecidableEq, Repr

/-- The `ValueError`s raised by the two model validators.  Each constructor
carries exactly the data interpolated into the corresponding message of the
source: e.g. `invalidSubcategory` carries the rejected subcategory and its
category but no list of accepted values, because the message
`"Subcategory {s} does not exist under category {c}"` mentions none. -/
inductive ValidationError where
  | invalidPattern (value : String) (valid : List String)
  | invalidMaterial (value : String) (valid : List String)
  | invalidCategory (value : String) (valid : List String)
  | invalidSubcategory (value : String) (category : String)
  | invalidProductType (value : String) (subcategory : String) (valid : List String)
  | invalidAttributeName (value : String) (subcategory : String) (valid : List String)
  | invalidAttributeValue (value : String) (attrName : String) (valid : List String)
deriving DecidableEq, Repr

/-- First validator in definition order: checks `pattern` against
`common_attributes["Pattern"]`, then `material` against
`common_attributes["Material"]`. -/
def validate_material_and_pattern (t : TaxonomyData) (m : ItemMetadata) :
    Except ValidationError ItemMetadata :=
  if m.pattern ∈ t.patterns then
    if m.material ∈ t.materials then .ok m
    else .error (.invalidMaterial m.material t.materials)
  else .error (.invalidPattern m.pattern t.patterns)

/-- The attribute loop of `validate_category_and_attributes`: for each
attribute in order, first its name must be a key of the subcategory's
`attributes` dict, then its value must be in that key's list. -/
def validateAttrs (sub : String) (sd : SubcategoryData) :
    List ItemAttribute → Except ValidationError Unit
  | [] => .ok ()
  | a :: rest =>
    match sd.attributes.lookup a.name with
    | none => .error (.invalidAttributeName a.name sub (sd.attributes.map Prod.fst))
    | some vals =>
      if a.value ∈ vals then validateAttrs sub sd rest
      else .error (.invalidAttributeValue a.value a.name vals)

/-- Second validator in definition order: category, then subcategory under the
category, then product type, then the attribute loop. -/
def validate_category_and_attributes (t : TaxonomyData) (m : ItemMetadata) :
    Except ValidationError ItemMetadata :=
  match t.taxonomy_map.lookup m.category with
  | none => .error (.invalidCategory m.category (t.taxonomy_map.map Prod.fst))
  | some subs =>
    match subs.lookup m.subcategory with
    | none => .error (.invalidSubcategory m.subcategory m.category)
    | some sd =>
      if m.product_type ∈ sd.product_type then
        match validateAttrs m.subcategory sd m.attributes with
        | .ok _ => .ok m
        | .error e => .error e
      else .error (.invalidProductType m.product_type m.subcategory sd.product_type)

/-- Full pydantic validation of a candidate `ItemMetadata` against the
taxonomy: the two `mode="after"` validators run in definition order, and the
first raised error aborts. -/
def validate (t : TaxonomyData) (m : ItemMetadata) : Except ValidationError ItemMetadata :=
  match validate_material_and_pattern t m with
  | .error e => .error e
  | .ok m' => validate_category_and_attributes t m'

/-- A key with a successful lookup is among the keys of the association list
(the model of `k in d` / `list(d.keys())` for a Python dict). -/
theorem mem_keys_of_lookup {α β : Type} [BEq α] [LawfulBEq α]
    {l : List (α × β)} {k : α} {v : β} (h : l.lookup k = some v) :
    k ∈ l.map Prod.fst := by
  induction l with
  | nil => simp [List.lookup] at h
  | cons p rest ih =>
    rw [List.lookup_cons] at h
    by_cases hk : k == p.1
    · simp only [hk, if_pos] at h
      simp [List.mem_cons, eq_of_beq hk]
    · simp only [hk, if_neg, Bool.false_eq_true, not_false_iff] at h
      exact List.mem_cons_of_mem _ (ih h)

/-- Soundness of the attribute loop: acceptance means every attribute's name
is a key of the subcategory's attribute dict and its value is in that key's
valid-value list. -/
theorem validateAttrs_sound {sub : String} {sd : SubcategoryData} :
    ∀ {l : List ItemAttribute}, validateAttrs sub sd l = .ok () →
      ∀ a ∈ l, ∃ vals, sd.attributes.lookup a.name = some vals ∧ a.value ∈ vals
  | [], _, a, ha => absurd ha (List.not_mem_nil a)
  | a :: rest, h, b, hb => by
    unfold validateAttrs at h
    split at h
    · exact absurd h (by simp)
    · rename_i vals hl
      split at h
      · rename_i hv
        rcases List.mem_cons.mp hb with rfl | hbr
        · exact ⟨vals, hl, hv⟩
        · exact validateAttrs_sound h b hbr
      · exact absurd h (by simp)

/-- Acceptance by the first validator means the record is returned unchanged
and pattern/material are in the global vocabularies. -/
theorem validate_material_and_pattern_sound {t : TaxonomyData} {m m' : ItemMetadata}
    (h : validate_material_and_pattern t m = .ok m') :
    m' = m ∧ m.pattern ∈ t.patterns ∧ m.material ∈ t.materials := by
  unfold validate_material_and_pattern at h
  by_cases hp : m.pattern ∈ t.patterns
  · rw [if_pos hp] at h
    by_cases hm : m.material ∈ t.materials
    · rw [if_pos hm] at h
      exact ⟨(Except.ok.inj h).symm, hp, hm⟩
    · rw [if_neg hm] at h; exact absurd h (by simp)
  · rw [if_neg hp] at h; exact absurd h (by simp)

/-- C1: if validation accepts a candidate, the candidate is returned unchanged
and every field is consistent with the taxonomy: the category is a key of
`taxonomy_map`, the subcategory a key under it, the product type in that
subcategory's list, every attribute name a key of the subcategory's attribute
dict with its value in the valid set, and material/pattern in the global
vocabularies. -/
theorem validate_accept_sound (t : TaxonomyData) (m m' : ItemMetadata)
    (h : validate t m = .ok m') :
    m' = m ∧
    m.category ∈ t.taxonomy_map.map Prod.fst ∧
    (∃ subs, t.taxonomy_map.lookup m.category = some subs ∧
      m.subcategory ∈ subs.map Prod.fst ∧
      ∃ sd, subs.lookup m.subcategory = some sd ∧
        m.product_type ∈ sd.product_type ∧
        ∀ a ∈ m.attributes,
          a.name ∈ sd.attributes.map Prod.fst ∧
          ∃ vals, sd.attributes.lookup a.name = some vals ∧ a.value ∈ vals) ∧
    m.material ∈ t.materials ∧ m.pattern ∈ t.patterns := by
  unfold validate at h
  split at h
  · exact absurd h (by simp)
  · rename_i m₁ h1
    obtain ⟨he, hp, hm⟩ := validate_material_and_pattern_sound h1
    rw [he] at h
    unfold validate_category_and_attributes at h
    split at h
    · exact absurd h (by simp)
    · rename_i subs hc
      split at h
      · exact absurd h (by simp)
      · rename_i sd hs
        split at h
        · rename_i hpt
          split at h
          · rename_i u ha
            have hm' : m' = m := by cases u; exact (Except.ok.inj h).symm
            refine ⟨hm', mem_keys_of_lookup hc, ⟨subs, hc, mem_keys_of_lookup hs,
              sd, hs, hpt, ?_⟩, hm, hp⟩
            intro a hma
            obtain ⟨vals, hv, hvm⟩ := validateAttrs_sound (by cases u; exact ha) a hma
            exact ⟨mem_keys_of_lookup hv, vals, hv, hvm⟩
          · exact absurd h (by simp)
        · exact absurd h (by simp)

/-- The concrete scenario taxonomy from the design notes: category "Women" →
subcategory "Tops" → product type "Tank Tops", attribute "Sleeve Length" ∈
{"Sleeveless", "Short"}, with small global pattern/material vocabularies. -/
def demoTaxonomy : TaxonomyData :=
  { taxonomy_map :=
      [("Women", [("Tops", { product_type := ["Tank Tops"]
                             attributes := [("Sleeve Length", ["Sleeveless", "Short"])] })])]
    patterns := ["Solid", "Striped"]
    materials := ["Cotton", "Polyester"] }

/-- A candidate that conforms to `demoTaxonomy`. -/
def demoItem : ItemMetadata :=
  { title := "Classic Tank"
    brand := "Acme"
    description := "A classic tank top for everyday wear."
    category := "Women"
    subcategory := "Tops"
    product_type := "Tank Tops"
    attributes := [⟨"Sleeve Length", "Sleeveless"⟩]
    material := "Cotton"
    pattern := "Solid" }

/-- Witness for C1: the demo candidate is accepted and the soundness
conclusions hold for it. -/
theorem validate_accept_sound_witness :
    demoItem.category ∈ demoTaxonomy.taxonomy_map.map Prod.fst ∧
    demoItem.material ∈ demoTaxonomy.materials ∧
    demoItem.pattern ∈ demoTaxonomy.patterns :=
  have h := validate_accept_sound demoTaxonomy demoItem demoItem rfl
  ⟨h.2.1, h.2.2.2⟩

/-- If pattern and material are valid, the first validator returns the record
unchanged. -/
theorem validate_material_and_pattern_ok {t : TaxonomyData} {m : ItemMetadata}
    (hp : m.pattern ∈ t.patterns) (hm : m.material ∈ t.materials) :
    validate_material_and_pattern t m = .ok m := by
  unfold validate_material_and_pattern
  rw [if_pos hp, if_pos hm]

/-- If pattern and material are valid, full validation reduces to the second
validator. -/
theorem validate_eq_of_pattern_material {t : TaxonomyData} {m : ItemMetadata}
    (hp : m.pattern ∈ t.patterns) (hm : m.material ∈ t.materials) :
    validate t m = validate_category_and_attributes t m := by
  unfold validate
  rw [validate_material_and_pattern_ok hp hm]

/-- The attribute loop skips over a prefix of valid attributes. -/
theorem validateAttrs_append {sub : String} {sd : SubcategoryData} :
    ∀ (pre l : List ItemAttribute),
      (∀ b ∈ pre, ∃ vals, sd.attributes.lookup b.name = some vals ∧ b.value ∈ vals) →
      validateAttrs sub sd (pre ++ l) = validateAttrs sub sd l
  | [], _, _ => rfl
  | b :: pre, l, hpre => by
    obtain ⟨vals, hv, hvm⟩ := hpre b (List.mem_cons_self b pre)
    simp only [List.cons_append, validateAttrs, hv, hvm, if_true]
    exact validateAttrs_append pre l (fun x hx => hpre x (List.mem_cons_of_mem _ hx))

/-- C3 (amended): validation is fail-fast in the order the validators actually
run: (1) pattern, (2) material, (3) category, (4) subcategory, (5) product
type, (6) for each attribute in order its name then its value; the first
failing check determines the `ValidationError`. -/
theorem validate_fail_fast_order (t : TaxonomyData) (m : ItemMetadata) :
    (m.pattern ∉ t.patterns →
      validate t m = .error (.invalidPattern m.pattern t.patterns)) ∧
    (m.pattern ∈ t.patterns → m.material ∉ t.materials →
      validate t m = .error (.invalidMaterial m.material t.materials)) ∧
    (m.pattern ∈ t.patterns → m.material ∈ t.materials →
      t.taxonomy_map.lookup m.category = none →
      validate t m = .error (.invalidCategory m.category (t.taxonomy_map.map Prod.fst))) ∧
    (m.pattern ∈ t.patterns → m.material ∈ t.materials →
      ∀ subs, t.taxonomy_map.lookup m.category = some subs →
        subs.lookup m.subcategory = none →
        validate t m = .error (.invalidSubcategory m.subcategory m.category)) ∧
    (m.pattern ∈ t.patterns → m.material ∈ t.materials →
      ∀ subs sd, t.taxonomy_map.lookup m.category = some subs →
        subs.lookup m.subcategory = some sd →
        m.product_type ∉ sd.product_type →
        validate t m =
          .error (.invalidProductType m.product_type m.subcategory sd.product_type)) ∧
    (m.pattern ∈ t.patterns → m.material ∈ t.materials →
      ∀ subs sd, t.taxonomy_map.lookup m.category = some subs →
        subs.lookup m.subcategory = some sd →
        m.product_type ∈ sd.product_type →
        ∀ pre a rest, m.attributes = pre ++ a :: rest →
          (∀ b ∈ pre, ∃ vals, sd.attributes.lookup b.name = some vals ∧ b.value ∈ vals) →
          (sd.attributes.lookup a.name = none →
            validate t m =
              .error (.invalidAttributeName a.name m.subcategory
                (sd.attributes.map Prod.fst))) ∧
          (∀ vals, sd.attributes.lookup a.name = some vals → a.value ∉ vals →
            validate t m = .error (.invalidAttributeValue a.value a.name vals))) := by
  refine ⟨?_, ?_, ?_, ?_, ?_, ?_⟩
  · intro hp
    simp [validate, validate_material_and_pattern, hp]
  · intro hp hm
    simp [validate, validate_material_and_pattern, hp, hm]
  · intro hp hm hc
    rw [validate_eq_of_pattern_material hp hm]
    simp [validate_category_and_attributes, hc]
  · intro hp hm subs hc hs
    rw [validate_eq_of_pattern_material hp hm]
    simp [validate_category_and_attributes, hc, hs]
  · intro hp hm subs sd hc hs hpt
    rw [validate_eq_of_pattern_material hp hm]
    simp [validate_category_and_attributes, hc, hs, hpt]
  · intro hp hm subs sd hc hs hpt pre a rest hattr hpre
    have hskip := @validateAttrs_append m.subcategory sd pre (a :: rest) hpre
    constructor
    · intro hna
      rw [validate_eq_of_pattern_material hp hm]
      simp [validate_category_and_attributes, hc, hs, hpt, hattr, hskip, validateAttrs, hna]
    · intro vals hv hnv
      rw [validate_eq_of_pattern_material hp hm]
      simp [validate_category_and_attributes, hc, hs, hpt, hattr, hskip, validateAttrs, hv, hnv]

/-- A candidate whose category AND pattern are both invalid. -/
def badOrderItem : ItemMetadata :=
  { demoItem with category := "Pets", pattern := "Swirl" }

/-- Counterexample to C3 as stated: on a candidate whose category is invalid,
the signalled error is about the pattern, not the category — the category
check is not performed first (the pattern/material validator runs first, and
within it the pattern is checked before the material). -/
theorem validate_order_counterexample :
    validate demoTaxonomy badOrderItem =
      .error (.invalidPattern "Swirl" ["Solid", "Striped"]) ∧
    demoTaxonomy.taxonomy_map.lookup badOrderItem.category = none :=
  ⟨rfl, rfl⟩

/-- Witness for C3 (amended), applied to a candidate with an invalid
pattern. -/
theorem validate_fail_fast_order_witness :
    validate demoTaxonomy badOrderItem =
      .error (.invalidPattern "Swirl" ["Solid", "Striped"]) :=
  (validate_fail_fast_order demoTaxonomy badOrderItem).1 (by decide)

/-- Whether the error message carries the list of values that would have been
accepted.  Every message of the source interpolates such a list except the
subcategory one (`"Subcategory {s} does not exist under category {c}"`). -/
def hasAcceptedList : ValidationError → Bool
  | .invalidSubcategory _ _ => false
  | _ => true

/-- The rejected value stated by the error message (its first interpolated
field). -/
def rejectedValue : ValidationError → String
  | .invalidPattern v _ => v
  | .invalidMaterial v _ => v
  | .invalidCategory v _ => v
  | .invalidSubcategory v _ => v
  | .invalidProductType v _ _ => v
  | .invalidAttributeName v _ _ => v
  | .invalidAttributeValue v _ _ => v

/-- An error out of the attribute loop is an attribute-name or
attribute-value error for some attribute of the list. -/
theorem validateAttrs_error {sub : String} {sd : SubcategoryData} :
    ∀ {l : List ItemAttribute} {e : ValidationError}, validateAttrs sub sd l = .error e →
      (∃ a ∈ l, e = .invalidAttributeName a.name sub (sd.attributes.map Prod.fst)) ∨
      (∃ a ∈ l, ∃ vals, sd.attributes.lookup a.name = some vals ∧
        e = .invalidAttributeValue a.value a.name vals)
  | [], e, h => by simp [validateAttrs] at h
  | a :: rest, e, h => by
    unfold validateAttrs at h
    split at h
    · left
      exact ⟨a, List.mem_cons_self a rest, (Except.error.inj h).symm⟩
    · rename_i vals hl
      split at h
      · rcases validateAttrs_error h with ⟨b, hb, he⟩ | ⟨b, hb, vals', hv, he⟩
        · exact Or.inl ⟨b, List.mem_cons_of_mem _ hb, he⟩
        · exact Or.inr ⟨b, List.mem_cons_of_mem _ hb, vals', hv, he⟩
      · right
        exact ⟨a, List.mem_cons_self a rest, vals, hl, (Except.error.inj h).symm⟩

/-- C4 (amended): every `ValidationError` produced by validation states the
rejected value, which is the candidate's offending field content (or an
offending attribute's name or value); every failing check also lists the
accepted values, except the subcategory check, whose error carries only the
rejected subcategory and its category. -/
theorem validate_error_reporting (t : TaxonomyData) (m : ItemMetadata)
    (e : ValidationError) (h : validate t m = .error e) :
    (hasAcceptedList e = false → e = .invalidSubcategory m.subcategory m.category) ∧
    rejectedValue e ∈
      [m.pattern, m.material, m.category, m.subcategory, m.product_type] ++
        m.attributes.map ItemAttribute.name ++ m.attributes.map ItemAttribute.value := by
  unfold validate at h
  split at h
  · rename_i e₁ h1
    unfold validate_material_and_pattern at h1
    have he := Except.error.inj h
    subst he
    split at h1
    · split at h1
      · exact absurd h1 (by simp)
      · have := (Except.error.inj h1).symm
        subst this
        simp [hasAcceptedList, rejectedValue]
    · have := (Except.error.inj h1).symm
      subst this
      simp [hasAcceptedList, rejectedValue]
  · rename_i m₁ h1
    obtain ⟨he, _, _⟩ := validate_material_and_pattern_sound h1
    rw [he] at h
    unfold validate_category_and_attributes at h
    split at h
    · have := (Except.error.inj h).symm
      subst this
      simp [hasAcceptedList, rejectedValue]
    · rename_i subs hc
      split at h
      · have := (Except.error.inj h).symm
        subst this
        simp [hasAcceptedList, rejectedValue]
      · rename_i sd hs
        split at h
        · split at h
          · exact absurd h (by simp)
          · rename_i e' ha
            have := Except.error.inj h
            subst this
            rcases validateAttrs_error ha with ⟨b, hb, he'⟩ | ⟨b, hb, vals, hv, he'⟩
            · subst he'
              refine ⟨by simp [hasAcceptedList], ?_⟩
              simp only [rejectedValue, List.mem_append]
              exact Or.inl (Or.inr (List.mem_map_of_mem ItemAttribute.name hb))
            · subst he'
              refine ⟨by simp [hasAcceptedList], ?_⟩
              simp only [rejectedValue, List.mem_append]
              exact Or.inr (List.mem_map_of_mem ItemAttribute.value hb)
        · have := (Except.error.inj h).symm
          subst this
          simp [hasAcceptedList, rejectedValue]

/-- A candidate with a valid category but an invalid subcategory. -/
def badSubItem : ItemMetadata :=
  { demoItem with subcategory := "Shoes" }

/-- Counterexample to C4 as stated: the subcategory check's error does not
list the values that would have been accepted. -/
theorem validate_error_reporting_counterexample :
    validate demoTaxonomy badSubItem = .error (.invalidSubcategory "Shoes" "Women") ∧
    hasAcceptedList (.invalidSubcategory "Shoes" "Women") = false :=
  ⟨rfl, rfl⟩

/-- A candidate with an invalid material. -/
def badMaterialItem : ItemMetadata :=
  { demoItem with material := "Vibranium" }

/-- Witness for C4 (amended), applied to a candidate with an invalid
material. -/
theorem validate_error_reporting_witness :
    rejectedValue (.invalidMaterial "Vibranium" ["Cotton", "Polyester"]) ∈
      [badMaterialItem.pattern, badMaterialItem.material, badMaterialItem.category,
        badMaterialItem.subcategory, badMaterialItem.product_type] ++
        badMaterialItem.attributes.map ItemAttribute.name ++
        badMaterialItem.attributes.map ItemAttribute.value :=
  (validate_error_reporting demoTaxonomy badMaterialItem
    (.invalidMaterial "Vibranium" ["Cotton", "Polyester"]) rfl).2

/-- C8: a candidate with an empty attribute list passes the attribute loop,
so whenever its other fields satisfy their membership checks it is
accepted. -/
theorem validate_empty_attributes (t : TaxonomyData) (m : ItemMetadata)
    (hattr : m.attributes = [])
    (hp : m.pattern ∈ t.patterns) (hm : m.material ∈ t.materials)
    (subs : List (String × SubcategoryData)) (sd : SubcategoryData)
    (hc : t.taxonomy_map.lookup m.category = some subs)
    (hs : subs.lookup m.subcategory = some sd)
    (hpt : m.product_type ∈ sd.product_type) :
    validate t m = .ok m := by
  rw [validate_eq_of_pattern_material hp hm]
  simp [validate_category_and_attributes, hc, hs, hpt, hattr, validateAttrs]

/-- The demo candidate with its attribute list emptied. -/
def emptyAttrsItem : ItemMetadata :=
  { demoItem with attributes := [] }

/-- Witness for C8: the attribute-free demo candidate is accepted. -/
theorem validate_empty_attributes_witness :
    validate demoTaxonomy emptyAttrsItem = .ok emptyAttrsItem :=
  validate_empty_attributes demoTaxonomy emptyAttrsItem rfl (by decide) (by decide)
    _ _ rfl rfl (by decide)

/-! ## The batch orchestrator

`generate_dataset_label` wraps one extraction call (building the prompt,
calling the model through `wait_for(..., 30)` and validating the output)
in `@retry(stop=stop_after_attempt(3), wait=wait_fixed(1))` and an
`async with sem:` block, and the notebook drives it over all dataset rows
with `asyncio.gather(*[generate_dataset_label(...) for ds_row in ds])`.

The model: one batch item is its source image together with the outcome of
each successive extraction attempt (an attempt's failure — timeout,
validation error or transport error — is abstracted as its message).
`retryCall` is the tenacity loop: it returns the first successful attempt,
and after `maxAttempts` failures raises a `RetryError` wrapping the last
failure (not tagged with the item's identity).  `gatherWith` is
`asyncio.gather` with its default `return_exceptions=False`, parametrised by
the completion schedule `order` (the order in which the concurrent tasks
finish): each finishing task writes its result into the slot of its input
index, and the first task to raise makes the whole gather raise. -/

/-- One extracted item paired with its source image, as produced per element
of `generate_dataset_label`'s result list. -/
structure LabeledItem where
  image : String
  metadata : ItemMetadata
deriving DecidableEq, Repr

/-- One dataset row's extraction result: zero or more labeled items. -/
abbrev DatasetRow := List LabeledItem

/-- The error surfaced after tenacity exhausts its attempts: a `RetryError`
wrapping the last attempt's failure message. -/
inductive BatchError where
  | retryError (lastFailure : String)
deriving DecidableEq, Repr

/-- A batch input item: its image plus the outcome each successive extraction
attempt would produce (`.ok` with the validated items, or `.error` with the
failure message). -/
structure BatchItem where
  image : String
  attempts : Nat → Except String (List ItemMetadata)

/-- The tenacity retry loop `@retry(stop=stop_after_attempt(n), ...)`:
try attempt `i`; on failure retry, and after the final allowed attempt raise
`RetryError` wrapping the last failure. -/
def retryCall {α : Type} (attempts : Nat → Except String α) : Nat → Nat → Except BatchError α
  | _, 0 => .error (.retryError "no attempts were made")
  | i, Nat.succ n =>
    match attempts i with
    | .ok a => .ok a
    | .error msg =>
      match n with
      | 0 => .error (.retryError msg)
      | Nat.succ _ => retryCall attempts (i + 1) n

/-- `generate_dataset_label`: the retried extraction of one dataset item,
returning on success the list of extracted items each paired with the source
image (`maxAttempts = 3` as in the source). -/
def generate_dataset_label (it : BatchItem) : Except BatchError DatasetRow :=
  match retryCall it.attempts 0 3 with
  | .ok items => .ok (items.map fun m => ⟨it.image, m⟩)
  | .error e => .error e

/-- The failures surfaced to `asyncio.gather`, in completion order. -/
def gatherErrors {ε α : Type} (rs : List (Except ε α)) (order : List Nat) : List ε :=
  order.filterMap fun i =>
    match rs[i]? with
    | some (Except.error e) => some e
    | _ => none

/-- One completing task writing its result into its input-index slot. -/
def slotStep {ε α : Type} (rs : List (Except ε α)) (acc : List (Option α)) (i : Nat) :
    List (Option α) :=
  match rs[i]? with
  | some (Except.ok v) => acc.set i (some v)
  | _ => acc

/-- The result slots after all tasks completed in schedule `order`. -/
def gatherSlots {ε α : Type} (rs : List (Except ε α)) (order : List Nat) :
    List (Option α) :=
  order.foldl (slotStep rs) (List.replicate rs.length none)

/-- `asyncio.gather` with `return_exceptions=False` under completion schedule
`order`: if any task raises, the gather raises the first such failure;
otherwise it returns the slots in input order. -/
def gatherWith {ε α : Type} (order : List Nat) (rs : List (Except ε α)) :
    Except ε (List α) :=
  match (gatherErrors rs order).head? with
  | some e => .error e
  | none => .ok (gatherSlots rs order).reduceOption

/-- The batch loop: one `generate_dataset_label` task per dataset item,
gathered under completion schedule `order`. -/
def runBatchWith (order : List Nat) (items : List BatchItem) :
    Except BatchError (List DatasetRow) :=
  gatherWith order (items.map generate_dataset_label)

/-- Unfolding lemma for one retry round. -/
theorem retryCall_succ {α : Type} (attempts : Nat → Except String α) (i n : Nat) :
    retryCall attempts i (n + 1) =
      match attempts i with
      | .ok a => .ok a
      | .error msg =>
        match n with
        | 0 => .error (.retryError msg)
        | Nat.succ _ => retryCall attempts (i + 1) n := rfl

/-- If an item's three allowed attempts all fail, its task raises a
`RetryError` wrapping the last failure. -/
theorem generate_dataset_label_exhausted {it : BatchItem}
    (hex : ∀ k, k < 3 → ∃ msg, it.attempts k = Except.error msg) :
    ∃ msg, generate_dataset_label it = .error (.retryError msg) := by
  obtain ⟨m0, h0⟩ := hex 0 (by omega)
  obtain ⟨m1, h1⟩ := hex 1 (by omega)
  obtain ⟨m2, h2⟩ := hex 2 (by omega)
  refine ⟨m2, ?_⟩
  have : retryCall it.attempts 0 3 = .error (.retryError m2) := by
    rw [show (3 : Nat) = 2 + 1 from rfl, retryCall_succ, h0]
    rw [show (2 : Nat) = 1 + 1 from rfl, retryCall_succ, h1]
    rw [show (1 : Nat) = 0 + 1 from rfl, retryCall_succ, h2]
  simp [generate_dataset_label, this]

/-- C2 (amended): when one item of the batch exhausts every attempt, the
whole `asyncio.gather` call raises: the caller receives an error (a
`RetryError` wrapping the last failure, not tagged with the item's identity)
and no `DatasetRow` results at all, whatever the completion schedule. -/
theorem runBatch_exhausted_aborts (items : List BatchItem) (order : List Nat)
    (hperm : order.Perm (List.range items.length))
    (i : Nat) (it : BatchItem) (hit : items[i]? = some it)
    (hex : ∀ k, k < 3 → ∃ msg, it.attempts k = Except.error msg) :
    ∃ e, runBatchWith order items = .error e := by
  obtain ⟨msg, hgl⟩ := generate_dataset_label_exhausted hex
  have hlen : i < items.length := (List.getElem?_eq_some_iff.mp hit).1
  have hmem : i ∈ order := hperm.mem_iff.mpr (List.mem_range.mpr hlen)
  have hrs : (items.map generate_dataset_label)[i]? =
      some (Except.error (BatchError.retryError msg)) := by
    simp [List.getElem?_map, hit, hgl]
  have hne : BatchError.retryError msg ∈
      gatherErrors (items.map generate_dataset_label) order := by
    unfold gatherErrors
    refine List.mem_filterMap.mpr ⟨i, hmem, ?_⟩
    rw [hrs]
  cases hh : (gatherErrors (items.map generate_dataset_label) order).head? with
  | none =>
    rw [List.head?_eq_none_iff] at hh
    rw [hh] at hne
    exact absurd hne (List.not_mem_nil _)
  | some e =>
    refine ⟨e, ?_⟩
    unfold runBatchWith gatherWith
    rw [hh]

/-- A batch item whose every attempt fails. -/
def failItem : BatchItem :=
  { image := "img0", attempts := fun _ => .error "boom" }

/-- A batch item whose every attempt succeeds with one extracted item. -/
def okItem : BatchItem :=
  { image := "img1", attempts := fun _ => .ok [demoItem] }

/-- Counterexample to C2 as stated: in a 2-item batch where item 0 exhausts
all attempts and item 1 succeeds, the batch call returns the bare
`RetryError` (no item identity attached) and not a result list, even though
item 1's task completes with a `DatasetRow` — the surviving row is never
delivered to the caller. -/
theorem runBatch_abort_counterexample :
    runBatchWith [0, 1] [failItem, okItem] = .error (.retryError "boom") ∧
    generate_dataset_label okItem = .ok [⟨"img1", demoItem⟩] :=
  ⟨rfl, rfl⟩

/-- Witness for C2 (amended) on the concrete 2-item batch. -/
theorem runBatch_exhausted_aborts_witness :
    ∃ e, runBatchWith [0, 1] [failItem, okItem] = .error e :=
  runBatch_exhausted_aborts [failItem, okItem] [0, 1] (by decide) 0 failItem rfl
    (fun _ _ => ⟨"boom", rfl⟩)

/-- `slotStep` preserves the slot-array length. -/
theorem slotStep_length {ε α : Type} (rs : List (Except ε α)) (acc : List (Option α))
    (i : Nat) : (slotStep rs acc i).length = acc.length := by
  unfold slotStep
  split <;> simp

/-- The slot array keeps the task-count length. -/
theorem gatherSlots_length {ε α : Type} (rs : List (Except ε α)) (order : List Nat) :
    (gatherSlots rs order).length = rs.length := by
  suffices h : ∀ (o : List Nat) (acc : List (Option α)),
      (o.foldl (slotStep rs) acc).length = acc.length by
    unfold gatherSlots
    rw [h]
    exact List.length_replicate _ _
  intro o
  induction o with
  | nil => intro acc; rfl
  | cons i o ih =>
    intro acc
    rw [List.foldl_cons, ih, slotStep_length]

/-- A slot whose index completes somewhere in the schedule holds that task's
successful result, regardless of where in the schedule it completes. -/
theorem gatherSlots_getElem {ε α : Type} (rs : List (Except ε α)) (v : α) :
    ∀ (order : List Nat) (acc : List (Option α)) (j : Nat),
      acc.length = rs.length → rs[j]? = some (.ok v) →
      (j ∈ order ∨ acc[j]? = some (some v)) →
      (order.foldl (slotStep rs) acc)[j]? = some (some v)
  | [], _, j, _, _, hor => by
    rcases hor with h | h
    · exact absurd h (List.not_mem_nil j)
    · simpa using h
  | i :: order, acc, j, hlen, hj, hor => by
    rw [List.foldl_cons]
    have hjrs : j < rs.length := (List.getElem?_eq_some_iff.mp hj).1
    apply gatherSlots_getElem rs v order (slotStep rs acc i) j
    · rw [slotStep_length]; exact hlen
    · exact hj
    · rcases hor with hmem | hacc
      · rcases List.mem_cons.mp hmem with rfl | hmem'
        · right
          unfold slotStep
          rw [hj]
          exact List.getElem?_set_eq_of_lt (some v) (by rw [hlen]; exact hjrs)
        · left; exact hmem'
      · right
        unfold slotStep
        split
        · rename_i w hw
          by_cases hij : i = j
          · subst hij
            rw [hw] at hj
            have hwv : w = v := by
              injection hj with h'
              injection h'
            rw [hwv]
            exact List.getElem?_set_eq_of_lt (some v) (by rw [hlen]; exact hjrs)
          · rw [List.getElem?_set_ne hij]
            exact hacc
        · exact hacc

/-- Reading out a slot array all of whose slots were filled. -/
theorem reduceOption_all_some {α : Type} :
    ∀ (slots : List (Option α)), (∀ o ∈ slots, o.isSome) →
      slots.reduceOption.length = slots.length ∧
      ∀ (j : Nat) (v : α), slots[j]? = some (some v) → slots.reduceOption[j]? = some v
  | [], _ => ⟨rfl, by intro j v h; simp at h⟩
  | o :: rest, hall => by
    obtain ⟨w, rfl⟩ := Option.isSome_iff_exists.mp (hall o (List.mem_cons_self o rest))
    obtain ⟨ihlen, ihget⟩ :=
      reduceOption_all_some rest (fun x hx => hall x (List.mem_cons_of_mem _ hx))
    rw [List.reduceOption_cons_of_some]
    refine ⟨by simp [ihlen], ?_⟩
    intro j v hj
    cases j with
    | zero =>
      simp only [List.getElem?_cons_zero, Option.some.injEq] at hj ⊢
      exact hj
    | succ j =>
      simp only [List.getElem?_cons_succ] at hj ⊢
      exact ihget j v hj

/-- C5: whenever the batch call returns a result list, it has exactly one
`DatasetRow` per input item and the i-th row is the result of the i-th item,
for every completion schedule (any permutation of the task indices). -/
theorem runBatch_preserves_order (items : List BatchItem) (order : List Nat)
    (out : List DatasetRow) (hperm : order.Perm (List.range items.length))
    (h : runBatchWith order items = .ok out) :
    out.length = items.length ∧
    ∀ (i : Nat) (it : BatchItem), items[i]? = some it →
      ∃ row : DatasetRow, out[i]? = some row ∧ generate_dataset_label it = .ok row := by
  unfold runBatchWith gatherWith at h
  cases hh : (gatherErrors (items.map generate_dataset_label) order).head? with
  | some e =>
    rw [hh] at h
    exact absurd h (by simp)
  | none =>
    rw [hh] at h
    have hout : out = (gatherSlots (items.map generate_dataset_label) order).reduceOption :=
      (Except.ok.inj h).symm
    have hnil : gatherErrors (items.map generate_dataset_label) order = [] :=
      List.head?_eq_none_iff.mp hh
    unfold gatherErrors at hnil
    have hrslen : (items.map generate_dataset_label).length = items.length :=
      List.length_map _ _
    have hallok : ∀ j, j < items.length →
        ∃ v, (items.map generate_dataset_label)[j]? = some (Except.ok v) := by
      intro j hj
      have hjr : j ∈ order := hperm.mem_iff.mpr (List.mem_range.mpr hj)
      have hnone := List.filterMap_eq_nil_iff.mp hnil j hjr
      have hjlen : j < (items.map generate_dataset_label).length := by
        rw [hrslen]; exact hj
      cases hre : (items.map generate_dataset_label)[j]? with
      | none => rw [List.getElem?_eq_none_iff] at hre; omega
      | some r =>
        cases r with
        | error e => rw [hre] at hnone; simp at hnone
        | ok v => exact ⟨v, rfl⟩
    have hslots : ∀ j, j < items.length →
        ∃ v, (items.map generate_dataset_label)[j]? = some (Except.ok v) ∧
          (gatherSlots (items.map generate_dataset_label) order)[j]? = some (some v) := by
      intro j hj
      obtain ⟨v, hv⟩ := hallok j hj
      refine ⟨v, hv, ?_⟩
      unfold gatherSlots
      exact gatherSlots_getElem _ v order _ j (List.length_replicate _ _) hv
        (Or.inl (hperm.mem_iff.mpr (List.mem_range.mpr hj)))
    have hslen : (gatherSlots (items.map generate_dataset_label) order).length = items.length := by
      rw [gatherSlots_length, hrslen]
    have hall_some : ∀ o ∈ gatherSlots (items.map generate_dataset_label) order, o.isSome := by
      intro o ho
      obtain ⟨j, hjl, hje⟩ := List.getElem_of_mem ho
      obtain ⟨v, _, hsv⟩ := hslots j (by rw [← hslen]; exact hjl)
      have : (gatherSlots (items.map generate_dataset_label) order)[j]? = some o := by
        rw [List.getElem?_eq_some_iff]; exact ⟨hjl, hje⟩
      rw [this] at hsv
      rw [Option.some.inj hsv]
      rfl
    obtain ⟨hrlen, hrget⟩ := reduceOption_all_some _ hall_some
    constructor
    · rw [hout, hrlen, hslen]
    · intro i it hit
      have hi : i < items.length := (List.getElem?_eq_some_iff.mp hit).1
      obtain ⟨v, hv, hsv⟩ := hslots i hi
      refine ⟨v, ?_, ?_⟩
      · rw [hout]
        exact hrget i v hsv
      · have hmap : (items.map generate_dataset_label)[i]? =
            some (generate_dataset_label it) := by
          simp [List.getElem?_map, hit]
        rw [hmap] at hv
        exact Option.some.inj hv

/-- A batch item whose extraction finds no items in the image. -/
def okItem2 : BatchItem :=
  { image := "img2", attempts := fun _ => .ok [] }

/-- Witness for C5: a 2-item batch gathered under the reversed completion
schedule still delivers row 0 as item 0's result. -/
theorem runBatch_preserves_order_witness :
    ∃ row, ([[(⟨"img1", demoItem⟩ : LabeledItem)], []] : List DatasetRow)[0]? = some row ∧
      generate_dataset_label okItem = .ok row :=
  (runBatch_preserves_order [okItem, okItem2] [1, 0] [[⟨"img1", demoItem⟩], []]
    (by decide) rfl).2 0 okItem rfl

/-! ## The admission gate

`sem = Semaphore(15)` and the `async with sem:` block wrapping each
extraction attempt are modelled as an event trace: a task acquires a slot,
performs its extraction call(s) while holding it, and releases it.
`semValid` is the semaphore discipline — an acquire is only admitted while
fewer than `K` tasks hold slots, and a call or release only happens in a
task that holds a slot (the call is inside the `async with` block). -/

/-- Events of one batch run, interleaved across tasks. -/
inductive SemEvent where
  | acquire (task : Nat)
  | call (task : Nat)
  | release (task : Nat)
deriving DecidableEq, Repr

/-- Effect of one event on the multiset of slot holders. -/
def semStep (hs : List Nat) : SemEvent → List Nat
  | .acquire t => t :: hs
  | .call _ => hs
  | .release t => hs.erase t

/-- The slot holders after a trace prefix. -/
def holdersAfter (tr : List SemEvent) : List Nat :=
  tr.foldl semStep []

/-- The semaphore discipline with capacity `K`, starting from holders `hs`:
an acquire requires a free slot, a call and a release require the task to be
holding a slot. -/
def semValid (K : Nat) : List Nat → List SemEvent → Bool
  | _, [] => true
  | hs, .acquire t :: rest =>
    decide (hs.length < K) && !(hs.contains t) && semValid K (t :: hs) rest
  | hs, .call t :: rest => hs.contains t && semValid K hs rest
  | hs, .release t :: rest => hs.contains t && semValid K (hs.erase t) rest

/-- Invariant of the semaphore discipline, generalised over the start
state. -/
theorem semValid_invariant (K : Nat) :
    ∀ (tr : List SemEvent) (hs : List Nat), hs.length ≤ K → semValid K hs tr = true →
      (∀ p, p <+: tr → (p.foldl semStep hs).length ≤ K) ∧
      (∀ p t, (p ++ [SemEvent.call t]) <+: tr → t ∈ p.foldl semStep hs)
  | [], hs, hK, _ => by
    constructor
    · intro p hp
      rw [List.prefix_nil.mp hp]
      exact hK
    · intro p t hp
      have := List.prefix_nil.mp hp
      simp at this
  | e :: tr, hs, hK, hv => by
    have split_prefix : ∀ (p : List SemEvent), p <+: e :: tr →
        p = [] ∨ ∃ p', p = e :: p' ∧ p' <+: tr := by
      intro p hp
      cases p with
      | nil => exact Or.inl rfl
      | cons q p' =>
        obtain ⟨he, hp'⟩ := List.cons_prefix_cons.mp hp
        exact Or.inr ⟨p', by rw [he], hp'⟩
    cases e with
    | acquire t =>
      unfold semValid at hv
      simp only [Bool.and_eq_true, decide_eq_true_eq, Bool.not_eq_true',
        Bool.and_assoc] at hv
      obtain ⟨hlt, hnm, hv'⟩ := hv
      obtain ⟨ih1, ih2⟩ := semValid_invariant K tr (t :: hs) (by simpa using hlt) hv'
      constructor
      · intro p hp
        rcases split_prefix p hp with rfl | ⟨p', rfl, hp'⟩
        · exact hK
        · rw [List.foldl_cons]
          exact ih1 p' hp'
      · intro p u hp
        rcases split_prefix _ hp with habs | ⟨p', he', hp'⟩
        · simp at habs
        · cases p with
          | nil => exact absurd (List.cons.inj he').1 (by simp)
          | cons q p'' =>
            obtain ⟨hq, hp''⟩ := List.cons.inj he'
            subst hq
            rw [← hp''] at hp'
            rw [List.foldl_cons]
            exact ih2 p'' u hp'
    | call t =>
      unfold semValid at hv
      simp only [Bool.and_eq_true] at hv
      obtain ⟨hmem, hv'⟩ := hv
      obtain ⟨ih1, ih2⟩ := semValid_invariant K tr hs hK hv'
      constructor
      · intro p hp
        rcases split_prefix p hp with rfl | ⟨p', rfl, hp'⟩
        · exact hK
        · rw [List.foldl_cons]
          exact ih1 p' hp'
      · intro p u hp
        rcases split_prefix _ hp with habs | ⟨p', he', hp'⟩
        · simp at habs
        · cases p with
          | nil =>
            have : SemEvent.call u = SemEvent.call t := (List.cons.inj he').1
            have hut : u = t := by injection this
            subst hut
            simpa using List.mem_of_elem_eq_true hmem
          | cons q p'' =>
            obtain ⟨hq, hp''⟩ := List.cons.inj he'
            subst hq
            rw [← hp''] at hp'
            rw [List.foldl_cons]
            exact ih2 p'' u hp'
    | release t =>
      unfold semValid at hv
      simp only [Bool.and_eq_true] at hv
      obtain ⟨hmem, hv'⟩ := hv
      have herase : (hs.erase t).length ≤ K :=
        le_trans (List.length_erase_le _ _) hK
      obtain ⟨ih1, ih2⟩ := semValid_invariant K tr (hs.erase t) herase hv'
      constructor
      · intro p hp
        rcases split_prefix p hp with rfl | ⟨p', rfl, hp'⟩
        · exact hK
        · rw [List.foldl_cons]
          exact ih1 p' hp'
      · intro p u hp
        rcases split_prefix _ hp with habs | ⟨p', he', hp'⟩
        · simp at habs
        · cases p with
          | nil => exact absurd (List.cons.inj he').1 (by simp)
          | cons q p'' =>
            obtain ⟨hq, hp''⟩ := List.cons.inj he'
            subst hq
            rw [← hp''] at hp'
            rw [List.foldl_cons]
            exact ih2 p'' u hp'

/-- C6: in every batch run admitted by the `Semaphore(K)` discipline, at
every point of the run at most `K` tasks hold slots, and every extraction
call is made by a task currently holding a slot — so at most `K` extraction
calls are in flight at any point. -/
theorem semaphore_bounds_inflight (K : Nat) (tr : List SemEvent)
    (h : semValid K [] tr = true) :
    (∀ p, p <+: tr → (holdersAfter p).length ≤ K) ∧
    (∀ p t, (p ++ [SemEvent.call t]) <+: tr → t ∈ holdersAfter p) :=
  semValid_invariant K tr [] (Nat.zero_le K) h

/-- A concrete interleaved 3-task trace admitted by `Semaphore(15)`. -/
def demoTrace : List SemEvent :=
  [.acquire 0, .acquire 1, .call 1, .call 0, .release 1,
   .acquire 2, .call 2, .release 2, .release 0]

/-- Witness for C6 on the concrete trace: after two acquires at most 15
tasks hold slots, and the call of task 1 happens while task 1 holds a
slot. -/
theorem semaphore_bounds_inflight_witness :
    (holdersAfter [SemEvent.acquire 0, SemEvent.acquire 1]).length ≤ 15 ∧
    1 ∈ holdersAfter [SemEvent.acquire 0, SemEvent.acquire 1] :=
  ⟨(semaphore_bounds_inflight 15 demoTrace (by decide)).1
      [SemEvent.acquire 0, SemEvent.acquire 1] (by decide),
    (semaphore_bounds_inflight 15 demoTrace (by decide)).2
      [SemEvent.acquire 0, SemEvent.acquire 1] 1 (by decide)⟩

/-! ## The flattening/assembly stage

`flattened_results = [item for sublist in results for item in sublist]` and
`flatten_item(item, id)` with
`price = round(random.uniform(10.0, 400.0), 2)` and
`attributes = json.dumps(flattened_item["attributes"])`.

Real arithmetic is modelled over `ℚ`: the uniform draw becomes an arbitrary
rational `u` with `10 ≤ u ≤ 400`, and Python's `round(x, 2)` becomes
round-half-to-even of `100 * x` divided by 100.  `json.dumps`/`json.loads`
of the attribute list are modelled at the JSON-value level (`Json` below);
the standard library's string rendering/parsing is treated as a faithful
external codec. -/

/-- Round to the nearest integer, ties to the even integer (Python's
`round`). -/
def roundHalfEven (q : ℚ) : ℤ :=
  if Int.fract q < 1 / 2 then ⌊q⌋
  else if 1 / 2 < Int.fract q then ⌊q⌋ + 1
  else if ⌊q⌋ % 2 = 0 then ⌊q⌋ else ⌊q⌋ + 1

/-- Python's `round(x, 2)`: round to 2 decimal digits. -/
def round2 (x : ℚ) : ℚ :=
  (roundHalfEven (100 * x) : ℚ) / 100

/-- The JSON values involved in serializing the attribute list. -/
inductive Json where
  | str (s : String)
  | arr (items : List Json)
  | obj (fields : List (String × Json))

/-- `model_dump` of one `ItemAttribute` followed by `json.dumps`: the object
`\x7b"name": ..., "value": ...\x7d`. -/
def dumpsAttribute (a : ItemAttribute) : Json :=
  .obj [("name", .str a.name), ("value", .str a.value)]

/-- `json.dumps` of the dumped attribute list. -/
def dumpsAttributes (l : List ItemAttribute) : Json :=
  .arr (l.map dumpsAttribute)

/-- `json.loads` of one serialized attribute. -/
def loadsAttribute : Json → Option ItemAttribute
  | .obj [("name", .str n), ("value", .str v)] => some ⟨n, v⟩
  | _ => none

/-- `json.loads` of a serialized attribute list. -/
def loadsAttributes : Json → Option (List ItemAttribute)
  | .arr items => items.mapM loadsAttribute
  | _ => none

/-- The flat record produced by `flatten_item`: the image, the spread-out
`ItemMetadata` fields with `attributes` replaced by its serialized form, and
the added `id` and `price`. -/
structure CatalogEntry where
  image : String
  title : String
  brand : String
  description : String
  category : String
  subcategory : String
  product_type : String
  attributes : Json
  material : String
  pattern : String
  id : Nat
  price : ℚ

/-- `flatten_item(item, id)`; the unseeded `random.uniform(10.0, 400.0)`
draw is passed in as `u`. -/
def flatten_item (item : LabeledItem) (id : Nat) (u : ℚ) : CatalogEntry :=
  { image := item.image
    title := item.metadata.title
    brand := item.metadata.brand
    description := item.metadata.description
    category := item.metadata.category
    subcategory := item.metadata.subcategory
    product_type := item.metadata.product_type
    attributes := dumpsAttributes item.metadata.attributes
    material := item.metadata.material
    pattern := item.metadata.pattern
    id := id
    price := round2 u }

/-- `flattened_results`: the list-of-lists of extraction results flattened
in row order. -/
def flattened_results (results : List (List LabeledItem)) : List LabeledItem :=
  results.flatten

/-- `hf_dataset_items = [flatten_item(item, id + 1) for id, item in
enumerate(flattened_results)]`; `draw` supplies each entry's uniform
draw. -/
def hf_dataset_items (draw : Nat → ℚ) (results : List (List LabeledItem)) :
    List CatalogEntry :=
  (flattened_results results).enum.map fun p => flatten_item p.2 (p.1 + 1) (draw p.1)

/-- C7: assembly yields one `CatalogEntry` per extracted item — the output
length is the sum of the row sizes — and the entry at flattened position `i`
carries identifier `i + 1` (a 1-based sequential counter over the flattened
order) and is the flattening of the i-th item of the flattened row order. -/
theorem hf_dataset_items_ids (draw : Nat → ℚ) (results : List (List LabeledItem)) :
    (hf_dataset_items draw results).length = (results.map List.length).sum ∧
    ∀ (i : Nat), i < (hf_dataset_items draw results).length →
      ∃ entry : CatalogEntry, (hf_dataset_items draw results)[i]? = some entry ∧
        entry.id = i + 1 ∧
        ∃ item : LabeledItem, (flattened_results results)[i]? = some item ∧
          entry = flatten_item item (i + 1) (draw i) := by
  have hlen : (hf_dataset_items draw results).length = (flattened_results results).length := by
    unfold hf_dataset_items
    rw [List.length_map, List.enum_length]
  constructor
  · rw [hlen]
    unfold flattened_results
    exact List.length_flatten results
  · intro i hi
    rw [hlen] at hi
    cases hit : (flattened_results results)[i]? with
    | none =>
      rw [List.getElem?_eq_none_iff] at hit
      omega
    | some item =>
      refine ⟨flatten_item item (i + 1) (draw i), ?_, rfl, item, rfl, rfl⟩
      simp [hf_dataset_items, List.getElem?_map, List.getElem?_enum, hit]

/-- The demo extracted item labeled with its source image. -/
def demoLab : LabeledItem :=
  ⟨"img", demoItem⟩

/-- Witness for C7: a 2-row batch with 1 item in row 1 and 2 items in row 2
yields exactly 3 entries with identifiers 1, 2, 3. -/
theorem hf_dataset_items_ids_witness :
    (hf_dataset_items (fun _ => 50) [[demoLab], [demoLab, demoLab]]).length = 3 ∧
    (∃ e : CatalogEntry,
      (hf_dataset_items (fun _ => 50) [[demoLab], [demoLab, demoLab]])[0]? = some e ∧
        e.id = 1) ∧
    (∃ e : CatalogEntry,
      (hf_dataset_items (fun _ => 50) [[demoLab], [demoLab, demoLab]])[1]? = some e ∧
        e.id = 2) ∧
    (∃ e : CatalogEntry,
      (hf_dataset_items (fun _ => 50) [[demoLab], [demoLab, demoLab]])[2]? = some e ∧
        e.id = 3) := by
  have h := hf_dataset_items_ids (fun _ => 50) [[demoLab], [demoLab, demoLab]]
  obtain ⟨e0, he0, hid0, -⟩ := h.2 0 (by rw [h.1]; decide)
  obtain ⟨e1, he1, hid1, -⟩ := h.2 1 (by rw [h.1]; decide)
  obtain ⟨e2, he2, hid2, -⟩ := h.2 2 (by rw [h.1]; decide)
  exact ⟨by rw [h.1]; rfl, ⟨e0, he0, hid0⟩, ⟨e1, he1, hid1⟩, ⟨e2, he2, hid2⟩⟩

/-- Rounding to nearest never moves the value up by more than a half. -/
theorem roundHalfEven_le (q : ℚ) : (roundHalfEven q : ℚ) ≤ q + 1 / 2 := by
  have hfl : (⌊q⌋ : ℚ) ≤ q := Int.floor_le q
  have hfu : q < (⌊q⌋ : ℚ) + 1 := Int.lt_floor_add_one q
  have hfr : Int.fract q = q - ⌊q⌋ := rfl
  unfold roundHalfEven
  split_ifs with h1 h2 h3 <;> rw [hfr] at * <;> push_cast <;> linarith

/-- Rounding to nearest never moves the value down by more than a half. -/
theorem le_roundHalfEven (q : ℚ) : q - 1 / 2 ≤ (roundHalfEven q : ℚ) := by
  have hfl : (⌊q⌋ : ℚ) ≤ q := Int.floor_le q
  have hfu : q < (⌊q⌋ : ℚ) + 1 := Int.lt_floor_add_one q
  have hfr : Int.fract q = q - ⌊q⌋ := rfl
  unfold roundHalfEven
  split_ifs with h1 h2 h3 <;> rw [hfr] at * <;> push_cast <;> linarith

/-- An integer rounds to itself. -/
theorem roundHalfEven_intCast (n : ℤ) : roundHalfEven (n : ℚ) = n := by
  unfold roundHalfEven
  rw [Int.fract_intCast, Int.floor_intCast]
  norm_num

/-- C9: every assembled price lies in `[10, 400]` and is already rounded to
2 decimal places (rounding it again does not change it). -/
theorem flatten_item_price (item : LabeledItem) (id : Nat) (u : ℚ)
    (h10 : 10 ≤ u) (h400 : u ≤ 400) :
    10 ≤ (flatten_item item id u).price ∧ (flatten_item item id u).price ≤ 400 ∧
    round2 (flatten_item item id u).price = (flatten_item item id u).price := by
  have hle : (roundHalfEven (100 * u) : ℚ) ≤ 100 * u + 1 / 2 := roundHalfEven_le _
  have hge : 100 * u - 1 / 2 ≤ (roundHalfEven (100 * u) : ℚ) := le_roundHalfEven _
  have hlow : (1000 : ℤ) ≤ roundHalfEven (100 * u) := by
    by_contra hc
    push_neg at hc
    have h9 : roundHalfEven (100 * u) ≤ 999 := by omega
    have h9q : (roundHalfEven (100 * u) : ℚ) ≤ 999 := by exact_mod_cast h9
    linarith
  have hhigh : roundHalfEven (100 * u) ≤ 40000 := by
    by_contra hc
    push_neg at hc
    have h4 : (40001 : ℤ) ≤ roundHalfEven (100 * u) := hc
    have h4q : (40001 : ℚ) ≤ (roundHalfEven (100 * u) : ℚ) := by exact_mod_cast h4
    linarith
  have hlowq : (1000 : ℚ) ≤ (roundHalfEven (100 * u) : ℚ) := by exact_mod_cast hlow
  have hhighq : (roundHalfEven (100 * u) : ℚ) ≤ 40000 := by exact_mod_cast hhigh
  have hp : (flatten_item item id u).price = (roundHalfEven (100 * u) : ℚ) / 100 := rfl
  refine ⟨by rw [hp]; linarith, by rw [hp]; linarith, ?_⟩
  rw [hp]
  unfold round2
  rw [show (100 : ℚ) * ((roundHalfEven (100 * u) : ℚ) / 100) =
    (roundHalfEven (100 * u) : ℚ) by field_simp]
  rw [roundHalfEven_intCast]

/-- Witness for C9 at the concrete draw `u = 123.4`. -/
theorem flatten_item_price_witness :
    10 ≤ (flatten_item demoLab 1 (1234 / 10)).price ∧
    (flatten_item demoLab 1 (1234 / 10)).price ≤ 400 ∧
    round2 (flatten_item demoLab 1 (1234 / 10)).price =
      (flatten_item demoLab 1 (1234 / 10)).price :=
  flatten_item_price demoLab 1 (1234 / 10) (by norm_num) (by norm_num)

/-- Deserializing the serialized attribute list recovers it exactly. -/
theorem mapM_loadsAttribute_dumps : ∀ (l : List ItemAttribute),
    (l.map dumpsAttribute).mapM loadsAttribute = some l
  | [] => rfl
  | a :: rest => by
    rw [List.map_cons, List.mapM_cons, mapM_loadsAttribute_dumps rest]
    rfl

/-- The attribute round trip through `json.dumps`/`json.loads`. -/
theorem loads_dumps_attributes (l : List ItemAttribute) :
    loadsAttributes (dumpsAttributes l) = some l :=
  mapM_loadsAttribute_dumps l

/-- C10: `flatten_item` is lossless — the image and every scalar metadata
field are carried over unchanged, and deserializing the serialized
attributes yields exactly the original ordered attribute sequence. -/
theorem flatten_item_lossless (item : LabeledItem) (id : Nat) (u : ℚ) :
    (flatten_item item id u).image = item.image ∧
    (flatten_item item id u).title = item.metadata.title ∧
    (flatten_item item id u).brand = item.metadata.brand ∧
    (flatten_item item id u).description = item.metadata.description ∧
    (flatten_item item id u).category = item.metadata.category ∧
    (flatten_item item id u).subcategory = item.metadata.subcategory ∧
    (flatten_item item id u).product_type = item.metadata.product_type ∧
    (flatten_item item id u).material = item.metadata.material ∧
    (flatten_item item id u).pattern = item.metadata.pattern ∧
    loadsAttributes (flatten_item item id u).attributes = some item.metadata.attributes :=
  ⟨rfl, rfl, rfl, rfl, rfl, rfl, rfl, rfl, rfl, loads_dumps_attributes _⟩

end GenDataset
